import Mathlib

/-!
Verification development for the segmentation-and-coordinate-resolution pipeline
of scripts/predictions2hints.py (Helixer hints conversion).

The embedding models:
- the per-row class-probability data (rows of shape 4, rational-valued),
- divvy_by_confidence (adaptive confidence-based splitting of a confident
  one-class sub-region into pre-hints),
- start_end_strand (strand-aware conversion of relative half-open 0-based
  coordinates to absolute closed 1-based gff coordinates),
- the step/max-size policy table and the divvy invocation built in main.

Machine integers are modelled as Nat (indices) and Int (genomic coordinates,
which Python computes with unbounded ints); probabilities as rationals.
Out-of-bounds numpy accesses are tracked by a separate access-trace model
(divvy_accesses); the computational model uses List.getD with default 0,
which agrees with the source wherever the source does not raise IndexError.
-/

namespace Helixer

/-- One row of the (N, 4) prediction array: a probability value for each of the
four classes (0 intergenic, 1 UTR, 2 coding, 3 intron). -/
abbrev ProbRow := Fin 4 → ℚ

/-- The four fixed feature labels, indexed by category (source line 8). -/
def HINTS : List String := ["irpart", "UTRpart", "CDSpart", "intronpart"]

/-- A maximal run of same-sequence, same-strand positions (spec §3); the
resolver start_end_strand only reads the is_plus_strand flag. -/
structure ContiguousBit where
  seqid : String
  start_i : Nat
  end_i : Nat
  is_plus_strand : Bool
deriving DecidableEq

/-- A pre-hint as yielded by divvy_by_confidence (source lines 30-33):
category, half-open [start, end) indices relative to the one-class chunk, and
the mean dominant-class probability as confidence. -/
structure PreHint where
  category : Fin 4
  start : Nat
  «end» : Nat
  confidence : ℚ
deriving DecidableEq

/-- np.argmax over a 4-entry row: the first index attaining the maximum. -/
def argmax4 (row : ProbRow) : Fin 4 :=
  List.foldl (fun best i => if row best < row i then i else best) 0 [1, 2, 3]

/-- The dominant-class column of the chunk: one_class_chunk[:, c]. -/
def class_probs (one_class_chunk : List ProbRow) (c : Fin 4) : List ℚ :=
  one_class_chunk.map (fun row => row c)

/-- np.abs(xs[:-1] - xs[1:]): absolute differences of consecutive entries
(source line 15); a list of length n - 1. -/
def abs_diffs (xs : List ℚ) : List ℚ :=
  (xs.zip xs.tail).map (fun p => |p.1 - p.2|)

/-- Running partial sums with accumulator, helper for cumsum. -/
def cumsumFrom (acc : ℚ) : List ℚ → List ℚ
  | [] => []
  | x :: xs => (acc + x) :: cumsumFrom (acc + x) xs

/-- np.cumsum (source line 16): entry k is the sum of the first k+1 inputs. -/
def cumsum (xs : List ℚ) : List ℚ := cumsumFrom 0 xs

/-- np.mean(xs[s:e]): mean of the slice [s, e) of xs (source line 33). -/
def sliceMean (xs : List ℚ) (s e : Nat) : ℚ :=
  let slice := (xs.drop s).take (e - s)
  slice.sum / (slice.length : ℚ)

/-- np.argmax(one_class_chunk[0]) (source line 13).  The source indexes row 0,
which exists for every chunk the pipeline passes in; an empty chunk is mapped
to the all-zero row. -/
def main_class_of (one_class_chunk : List ProbRow) : Fin 4 :=
  argmax4 (one_class_chunk.headD (fun _ => 0))

/-- The local state of divvy_by_confidence after source lines 13-20: the
dominant class, its policy pair, the cumulative volatility array, the
dominant-class probabilities (for confidence means) and the padded end. -/
structure DivvyLocals where
  cumulative_diffs : List ℚ
  main_probs : List ℚ
  main_class : Fin 4
  min_step : Nat
  max_size : Nat
  stability_threshold : ℚ
  padded_seq_end : Nat

/-- The loop of source lines 21-36: `for i in range(pad, padded_seq_end,
min_step)`, carrying end_of_last_yield and cdiff_at_last_yield.  fuel bounds
the number of iterations; the caller passes fuel at least padded_seq_end, which
suffices because every iteration advances i by min_step ≥ 1. -/
def divvyGo (ctx : DivvyLocals) : Nat → Nat → Nat → ℚ → List PreHint
  | 0, _, _, _ => []
  | fuel + 1, i, end_of_last_yield, cdiff_at_last_yield =>
    if i < ctx.padded_seq_end then
      let e := min (i + ctx.min_step) ctx.padded_seq_end
      if ctx.stability_threshold < ctx.cumulative_diffs.getD e 0 - cdiff_at_last_yield
          ∨ ctx.max_size < e - end_of_last_yield
          ∨ e = ctx.padded_seq_end then
        { category := ctx.main_class, start := end_of_last_yield, «end» := e,
          confidence := sliceMean ctx.main_probs end_of_last_yield e }
          :: divvyGo ctx fuel (i + ctx.min_step) e (ctx.cumulative_diffs.getD e 0)
      else
        divvyGo ctx fuel (i + ctx.min_step) end_of_last_yield cdiff_at_last_yield
    else []

/-- Builds the locals of divvy_by_confidence from its arguments
(source lines 13-20). -/
def divvy_ctx (one_class_chunk : List ProbRow) (step_key : Fin 4 → Nat × Nat)
    (pad : Nat) (stability_threshold : ℚ) : DivvyLocals :=
  let main_class := main_class_of one_class_chunk
  { cumulative_diffs := cumsum (abs_diffs (class_probs one_class_chunk main_class)),
    main_probs := class_probs one_class_chunk main_class,
    main_class := main_class,
    min_step := (step_key main_class).1,
    max_size := (step_key main_class).2,
    stability_threshold := stability_threshold,
    padded_seq_end := one_class_chunk.length - pad }

/-- divvy_by_confidence (source lines 11-36).  The loop starts at i = pad with
end_of_last_yield = pad and cdiff_at_last_yield = cumulative_diffs[pad]. -/
def divvy_by_confidence (one_class_chunk : List ProbRow)
    (step_key : Fin 4 → Nat × Nat) (pad : Nat) (stability_threshold : ℚ) :
    List PreHint :=
  let ctx := divvy_ctx one_class_chunk step_key pad stability_threshold
  divvyGo ctx one_class_chunk.length pad pad (ctx.cumulative_diffs.getD pad 0)

/-- The volatility measure the divvier tracks between two boundaries s and e:
cumulative_diffs[e] - cumulative_diffs[s] (source lines 18, 26, 36). -/
def volatility_between (one_class_chunk : List ProbRow) (c : Fin 4)
    (s e : Nat) : ℚ :=
  let cd := cumsum (abs_diffs (class_probs one_class_chunk c))
  cd.getD e 0 - cd.getD s 0

/-- The loop part of the index trace into cumulative_diffs: at each iteration
the condition on source line 26 reads cumulative_diffs[end] with
end = min(i + min_step, padded_seq_end). -/
def divvy_accesses_go (min_step padded_seq_end : Nat) : Nat → Nat → List Nat
  | 0, _ => []
  | fuel + 1, i =>
    if i < padded_seq_end then
      min (i + min_step) padded_seq_end
        :: divvy_accesses_go min_step padded_seq_end fuel (i + min_step)
    else []

/-- All indices at which divvy_by_confidence subscripts cumulative_diffs for a
chunk of n rows: index pad on source line 18, then one index per loop
iteration on source line 26 (the array itself has length n - 1). -/
def divvy_accesses (n pad min_step : Nat) : List Nat :=
  pad :: divvy_accesses_go min_step (n - pad) n pad

/-- start_end_strand (source lines 39-60): resolve a pre-hint's coordinates
relative to its one-class chunk and prediction chunk into absolute gff
coordinates (1-based, closed) plus a strand character. -/
def start_end_strand (contiguous_bit : ContiguousBit)
    (pred_chunk_start one_category_start : ℤ)
    (pre_hint_start pre_hint_end : ℤ) : ℤ × ℤ × Char :=
  if contiguous_bit.is_plus_strand then
    let absolute_start := pred_chunk_start + one_category_start + pre_hint_start
    let absolute_end := pred_chunk_start + one_category_start + pre_hint_end
    let gff_start := absolute_start + 1
    let gff_end := absolute_end
    (gff_start, gff_end, '+')
  else
    let absolute_start := pred_chunk_start - one_category_start - pre_hint_start
    let absolute_end := pred_chunk_start - one_category_start - pre_hint_end
    let gff_start := absolute_start + 1
    let gff_end := absolute_end
    (gff_end, gff_start, '-')

/-- The recognized configuration surface of main (source lines 108-120). -/
structure Args where
  step_genicpart : Nat
  max_genicpart_size : Nat
  step_irpart : Nat
  max_irpart_size : Nat
  pad : Nat
  stability_threshold : ℚ
deriving DecidableEq

/-- The default values declared by the argument parser
(source lines 112-117). -/
def default_args : Args :=
  { step_genicpart := 10, max_genicpart_size := 500,
    step_irpart := 100, max_irpart_size := 10000,
    pad := 5, stability_threshold := 1/10 }

/-- The policy table built in main (source lines 70-73):
ir_step_and_max = (step_irpart, step_irpart),
genic_step_and_max = (step_genicpart, step_genicpart),
hint_step_key = (ir, genic, genic, genic), indexed by the dominant class. -/
def hint_step_key (arguments : Args) : Fin 4 → Nat × Nat :=
  let ir_step_and_max := (arguments.step_irpart, arguments.step_irpart)
  let genic_step_and_max := (arguments.step_genicpart, arguments.step_genicpart)
  fun c =>
    match c with
    | 0 => ir_step_and_max
    | 1 => genic_step_and_max
    | 2 => genic_step_and_max
    | 3 => genic_step_and_max

/-- The divvy invocation in main (source line 83):
divvy_by_confidence(one_class_chunk, hint_step_key, pad=arguments.pad).
stability_threshold is not passed, so the Python default 0.1 is used. -/
def main_divvy_call (arguments : Args) (one_class_chunk : List ProbRow) :
    List PreHint :=
  divvy_by_confidence one_class_chunk (hint_step_key arguments)
    arguments.pad (1/10)

/-- A probability row whose class-0 entry is p and whose other entries are 0,
used to build concrete test chunks. -/
def cls0_row (p : ℚ) : ProbRow := fun i => if i.val = 0 then p else 0

/-- An 8-row one-class chunk whose dominant class (0) has probabilities
0.9, 0.9, 0.9, 0.5, 0.9, 0.5, 0.9, 0.9: volatile in the middle, so with
pad = 2 the splitting behaviour depends on the stability threshold. -/
def volatile_chunk : List ProbRow :=
  [cls0_row (9/10), cls0_row (9/10), cls0_row (9/10), cls0_row (1/2),
   cls0_row (9/10), cls0_row (1/2), cls0_row (9/10), cls0_row (9/10)]

/-- A configuration with pad = 2, intergenic step 2 and stability threshold 10,
far from the Python default 0.1. -/
def args_high_threshold : Args :=
  { step_genicpart := 10, max_genicpart_size := 500,
    step_irpart := 2, max_irpart_size := 10000,
    pad := 2, stability_threshold := 10 }

/-- A policy giving every category min_step 2 and max_size 100. -/
def flat_step_key : Fin 4 → Nat × Nat := fun _ => (2, 100)

/-- The pre-hints the divvier emits for volatile_chunk under flat_step_key,
pad 2 and the default threshold 0.1: two pre-hints [2,4) and [4,6). -/
def unstable_prehints : List PreHint :=
  divvy_by_confidence volatile_chunk flat_step_key 2 (1/10)

/-- Exact consecutive tiling of the half-open interval [lo, hi) by a list of
pre-hints: each pre-hint starts where the previous one ended, is nonempty,
stays below hi, and the list ends exactly at hi. -/
inductive Tiling (hi : Nat) : Nat → List PreHint → Prop
  | nil : Tiling hi hi []
  | cons {lo : Nat} {ph : PreHint} {rest : List PreHint} :
      ph.start = lo → lo < ph.«end» → ph.«end» ≤ hi →
      Tiling hi ph.«end» rest → Tiling hi lo (ph :: rest)

-- Rat.add, Rat.sub, Rat.mul and Rat.inv are shipped irreducible; re-allow
-- definitional unfolding so that concrete runs of the model evaluate by
-- decide and rfl.
unseal Rat.add Rat.mul Rat.sub Rat.inv

/-- Claim C1: for a PreHint resolved on the forward strand the emitted
coordinates are gff_start = chunk_start + subregion_start + prehint.start + 1
and gff_end = chunk_start + subregion_start + prehint.end, with strand
character plus (half-open 0-based converted to closed 1-based by incrementing
the start only). -/
theorem C1_forward_strand_coordinates (contiguous_bit : ContiguousBit)
    (pred_chunk_start one_category_start pre_hint_start pre_hint_end : ℤ)
    (hplus : contiguous_bit.is_plus_strand = true) :
    start_end_strand contiguous_bit pred_chunk_start one_category_start
        pre_hint_start pre_hint_end
      = (pred_chunk_start + one_category_start + pre_hint_start + 1,
         pred_chunk_start + one_category_start + pre_hint_end, '+') := by
  simp [start_end_strand, hplus]

/-- Witness for C1 at the spec's concrete scenario: a forward-strand chunk at
absolute offset 1000, sub-region offset 5, PreHint [2,8) resolves to
(1008, 1013, plus). -/
theorem C1_witness :
    (ContiguousBit.mk "chr1" 0 20 true).is_plus_strand = true ∧
    start_end_strand (ContiguousBit.mk "chr1" 0 20 true) 1000 5 2 8
      = (1008, 1013, '+') := by
  refine ⟨rfl, ?_⟩
  rw [C1_forward_strand_coordinates _ _ _ _ _ rfl]
  decide

/-- Claim C2: for a PreHint resolved on the reverse strand the sub-region
offset and the PreHint start/end are subtracted from chunk_start, 1 is added
to the raw start value only, and the two values are swapped before emission
(so the published pair is (raw_end, raw_start + 1) with strand minus), and
whenever prehint start ≤ end the published interval has start ≤ end. -/
theorem C2_reverse_strand_coordinates (contiguous_bit : ContiguousBit)
    (pred_chunk_start one_category_start pre_hint_start pre_hint_end : ℤ)
    (hminus : contiguous_bit.is_plus_strand = false) :
    start_end_strand contiguous_bit pred_chunk_start one_category_start
        pre_hint_start pre_hint_end
      = (pred_chunk_start - one_category_start - pre_hint_end,
         (pred_chunk_start - one_category_start - pre_hint_start) + 1, '-') ∧
    (pre_hint_start ≤ pre_hint_end →
      (start_end_strand contiguous_bit pred_chunk_start one_category_start
          pre_hint_start pre_hint_end).1
        ≤ (start_end_strand contiguous_bit pred_chunk_start one_category_start
            pre_hint_start pre_hint_end).2.1) := by
  constructor
  · simp [start_end_strand, hminus]
  · intro h
    simp [start_end_strand, hminus]
    omega

/-- Witness for C2: a reverse-strand chunk at offset 1020, sub-region offset 5,
PreHint [2,8) resolves to (1007, 1014, minus), an ordered interval. -/
theorem C2_witness :
    start_end_strand (ContiguousBit.mk "chr1" 0 20 false) 1020 5 2 8
      = (1007, 1014, '-') ∧
    (start_end_strand (ContiguousBit.mk "chr1" 0 20 false) 1020 5 2 8).1
      ≤ (start_end_strand (ContiguousBit.mk "chr1" 0 20 false) 1020 5 2 8).2.1 := by
  obtain ⟨h1, h2⟩ :=
    C2_reverse_strand_coordinates (ContiguousBit.mk "chr1" 0 20 false) 1020 5 2 8 rfl
  exact ⟨by rw [h1]; decide, h2 (by decide)⟩

/-- Claim C3 is refuted (code bug): a forward-strand resolution publishes a
closed 1-based interval of exactly pre_hint_end - pre_hint_start bases, but a
reverse-strand resolution of the same half-open pre-hint publishes
pre_hint_end - pre_hint_start + 2 bases (the minus branch increments the raw
start, which after the swap is the gff end, and leaves the new gff start
un-incremented).  Since mirroring preserves pre-hint length, no strand-flipped
mirror can denote the same absolute genomic span; the concrete instances show
a 6-base forward hint against the 8-base reverse resolution of the
corresponding pre-hint. -/
theorem C3_strand_symmetry_violated :
    (∀ (seqid : String) (start_i end_i : Nat) (cs ss s e : ℤ),
      (start_end_strand ⟨seqid, start_i, end_i, true⟩ cs ss s e).2.1
        - (start_end_strand ⟨seqid, start_i, end_i, true⟩ cs ss s e).1 + 1
        = e - s) ∧
    (∀ (seqid : String) (start_i end_i : Nat) (cs ss s e : ℤ),
      (start_end_strand ⟨seqid, start_i, end_i, false⟩ cs ss s e).2.1
        - (start_end_strand ⟨seqid, start_i, end_i, false⟩ cs ss s e).1 + 1
        = e - s + 2) ∧
    start_end_strand ⟨"chr1", 0, 20, true⟩ 1000 5 2 8 = (1008, 1013, '+') ∧
    start_end_strand ⟨"chr1", 0, 20, false⟩ 1020 5 2 8 = (1007, 1014, '-') := by
  refine ⟨?_, ?_, by decide, by decide⟩
  · intro seqid start_i end_i cs ss s e
    simp [start_end_strand]
    ring
  · intro seqid start_i end_i cs ss s e
    simp [start_end_strand]
    ring

/-- Claim C4: every Hint emitted by the pipeline satisfies
1 ≤ gff_start, 1 ≤ gff_end and gff_start ≤ gff_end, given that the PreHint has
start < end.  The nonnegativity of the offsets (forward) and the bound
subregion_offset + prehint.end < chunk_start (reverse) encode the coordinate
ranges the chunk-reading pipeline feeds into the resolver: on the reverse
strand every addressed storage row lies at least one position short of the
chunk-start coordinate because the divvier pads each sub-region end. -/
theorem C4_gff_bounds (contiguous_bit : ContiguousBit) (cs ss s e : ℤ)
    (hcs : 0 ≤ cs) (hss : 0 ≤ ss) (hs : 0 ≤ s) (hse : s < e)
    (hminus : contiguous_bit.is_plus_strand = false → ss + e < cs) :
    1 ≤ (start_end_strand contiguous_bit cs ss s e).1 ∧
    1 ≤ (start_end_strand contiguous_bit cs ss s e).2.1 ∧
    (start_end_strand contiguous_bit cs ss s e).1
      ≤ (start_end_strand contiguous_bit cs ss s e).2.1 := by
  cases hb : contiguous_bit.is_plus_strand
  · have hm := hminus hb
    simp [start_end_strand, hb]
    omega
  · simp [start_end_strand, hb]
    omega

/-- Witness for C4 on a reverse-strand instance: chunk start 1020, sub-region
offset 5, PreHint [2,8). -/
theorem C4_witness :
    1 ≤ (start_end_strand (ContiguousBit.mk "chr1" 0 20 false) 1020 5 2 8).1 ∧
    1 ≤ (start_end_strand (ContiguousBit.mk "chr1" 0 20 false) 1020 5 2 8).2.1 ∧
    (start_end_strand (ContiguousBit.mk "chr1" 0 20 false) 1020 5 2 8).1
      ≤ (start_end_strand (ContiguousBit.mk "chr1" 0 20 false) 1020 5 2 8).2.1 :=
  C4_gff_bounds (ContiguousBit.mk "chr1" 0 20 false) 1020 5 2 8
    (by decide) (by decide) (by decide) (by decide) (fun _ => by decide)

/-- Claim C8 (code bug): the policy table is keyed by category as claimed
(category 0 uses the ir pair, categories 1-3 the genic pair), but main builds
(step, step) pairs, so the max-size component equals the step size and the
parsed --max-irpart-size and --max-genicpart-size options are ignored: with
the declared defaults, category 0 gets (100, 100) instead of (100, 10000) and
category 1 gets (10, 10) instead of (10, 500). -/
theorem C8_policy_table :
    (∀ arguments : Args,
      hint_step_key arguments 0 = (arguments.step_irpart, arguments.step_irpart) ∧
      hint_step_key arguments 1 = (arguments.step_genicpart, arguments.step_genicpart) ∧
      hint_step_key arguments 2 = (arguments.step_genicpart, arguments.step_genicpart) ∧
      hint_step_key arguments 3 = (arguments.step_genicpart, arguments.step_genicpart)) ∧
    hint_step_key default_args 0
      ≠ (default_args.step_irpart, default_args.max_irpart_size) ∧
    hint_step_key default_args 1
      ≠ (default_args.step_genicpart, default_args.max_genicpart_size) :=
  ⟨fun _ => ⟨rfl, rfl, rfl, rfl⟩, by decide, by decide⟩

/-- Claim C9 (code bug): the volatility budget the divvier actually compares
against is the Python default 0.1, not the configured stability threshold,
because main's call omits the stability_threshold argument: with the
configuration args_high_threshold (threshold 10) on volatile_chunk the
pipeline's divvy output differs from what the configured threshold would
produce. -/
theorem C9_threshold_not_wired :
    main_divvy_call args_high_threshold volatile_chunk
      = divvy_by_confidence volatile_chunk (hint_step_key args_high_threshold)
          args_high_threshold.pad (1/10) ∧
    main_divvy_call args_high_threshold volatile_chunk
      ≠ divvy_by_confidence volatile_chunk (hint_step_key args_high_threshold)
          args_high_threshold.pad args_high_threshold.stability_threshold :=
  ⟨rfl, by decide⟩

/-- Indexing with a valid position yields a list member. -/
theorem mem_of_getElemOpt {α : Type} {l : List α} {j : Nat} {a : α}
    (h : l[j]? = some a) : a ∈ l := by
  induction l generalizing j with
  | nil => simp at h
  | cons x xs ih =>
    cases j with
    | zero =>
      simp only [List.getElem?_cons_zero, Option.some.injEq] at h
      simp [h]
    | succ j =>
      simp only [List.getElem?_cons_succ] at h
      exact List.mem_cons_of_mem x (ih h)

/-- A pairwise relation holds between entries at increasing positions. -/
theorem pairwise_of_getElemOpt {α : Type} {R : α → α → Prop} {l : List α}
    (hp : l.Pairwise R) {i j : Nat} {a b : α}
    (ha : l[i]? = some a) (hb : l[j]? = some b) (hij : i < j) : R a b := by
  induction l generalizing i j with
  | nil => simp at ha
  | cons x xs ih =>
    rcases List.pairwise_cons.mp hp with ⟨hx, hxs⟩
    cases i with
    | zero =>
      simp only [List.getElem?_cons_zero, Option.some.injEq] at ha
      cases j with
      | zero => omega
      | succ j =>
        simp only [List.getElem?_cons_succ] at hb
        subst ha
        exact hx b (mem_of_getElemOpt hb)
    | succ i =>
      cases j with
      | zero => omega
      | succ j =>
        simp only [List.getElem?_cons_succ] at ha hb
        exact ih hxs ha hb (by omega)

/-- A tiling of an empty list forces lo = hi. -/
theorem Tiling.nil_eq {hi lo : Nat} (h : Tiling hi lo []) : lo = hi := by
  cases h
  rfl

/-- Every pre-hint of a tiling lies inside [lo, hi) and is nonempty. -/
theorem Tiling.mem_bounds {hi lo : Nat} {l : List PreHint} (h : Tiling hi lo l) :
    ∀ ph ∈ l, lo ≤ ph.start ∧ ph.start < ph.«end» ∧ ph.«end» ≤ hi := by
  induction h with
  | nil => simp
  | cons hs hlt hle htl ih =>
    intro ph hph
    rcases List.mem_cons.mp hph with rfl | hph'
    · omega
    · have := ih ph hph'
      omega

/-- In a tiling, consecutive pre-hints meet exactly: previous end = next
start. -/
theorem Tiling.chain {hi lo : Nat} {l : List PreHint} (h : Tiling hi lo l) :
    l.Chain' (fun a b => a.«end» = b.start) := by
  induction h with
  | nil => simp
  | cons hs hlt hle htl ih =>
    rw [List.chain'_cons']
    refine ⟨?_, ih⟩
    intro b hb
    cases htl with
    | nil => simp at hb
    | cons hs2 hlt2 hle2 htl2 =>
      simp only [List.head?_cons, Option.mem_def, Option.some.injEq] at hb
      subst hb
      exact hs2.symm

/-- The pre-hints of a tiling are strictly ordered and pairwise disjoint. -/
theorem Tiling.pairwise {hi lo : Nat} {l : List PreHint} (h : Tiling hi lo l) :
    l.Pairwise (fun a b => a.start < b.start ∧ a.«end» ≤ b.start) := by
  induction h with
  | nil => simp
  | cons hs hlt hle htl ih =>
    rw [List.pairwise_cons]
    refine ⟨?_, ih⟩
    intro b hb
    have := htl.mem_bounds b hb
    omega

/-- The last pre-hint of a nonempty tiling ends exactly at hi. -/
theorem Tiling.lastD {hi lo : Nat} {l : List PreHint} (h : Tiling hi lo l) :
    ∀ d, l ≠ [] → (l.getLastD d).«end» = hi := by
  induction h with
  | nil => intro d hd; exact absurd rfl hd
  | @cons lo ph rest hs hlt hle htl ih =>
    intro d _
    cases rest with
    | nil =>
      have : ph.«end» = hi := htl.nil_eq
      simpa using this
    | cons r rs =>
      have := ih ph (by simp)
      simpa using this

/-- A tiling covers [lo, hi) exactly: a position is in [lo, hi) iff some
pre-hint of the tiling contains it. -/
theorem Tiling.cover {hi lo : Nat} {l : List PreHint} (h : Tiling hi lo l) :
    ∀ x : Nat, (lo ≤ x ∧ x < hi) ↔ ∃ ph ∈ l, ph.start ≤ x ∧ x < ph.«end» := by
  induction h with
  | nil =>
    intro x
    constructor
    · intro hx; omega
    · rintro ⟨ph, hph, -⟩; simp at hph
  | @cons lo ph rest hs hlt hle htl ih =>
    intro x
    constructor
    · rintro ⟨hlox, hxhi⟩
      by_cases hx : x < ph.«end»
      · exact ⟨ph, List.mem_cons_self ph rest, by omega, hx⟩
      · have ⟨b, hb, hbx⟩ := (ih x).mp (by omega)
        exact ⟨b, List.mem_cons_of_mem ph hb, hbx⟩
    · rintro ⟨b, hb, hbx1, hbx2⟩
      rcases List.mem_cons.mp hb with rfl | hb'
      · omega
      · have := htl.mem_bounds b hb'
        omega

/-- Once the loop index reaches padded_seq_end, the loop yields nothing (the
range is exhausted). -/
theorem divvyGo_stop (ctx : DivvyLocals) (f i eoly : Nat) (cly : ℚ)
    (h : ctx.padded_seq_end ≤ i) : divvyGo ctx f i eoly cly = [] := by
  cases f with
  | zero => rfl
  | succ f =>
    simp only [divvyGo]
    rw [if_neg (by omega)]

/-- Core structure of the divvy loop: starting at candidate i with last-yield
boundary eoly ≤ i and enough fuel, the emitted pre-hints tile
[eoly, padded_seq_end) exactly. -/
theorem divvyGo_tiling (ctx : DivvyLocals) (hstep : 0 < ctx.min_step) :
    ∀ (f i eoly : Nat) (cly : ℚ), ctx.padded_seq_end ≤ i + f → eoly ≤ i →
      i < ctx.padded_seq_end →
      Tiling ctx.padded_seq_end eoly (divvyGo ctx f i eoly cly) := by
  intro f
  induction f with
  | zero => intro i eoly cly hif hei hi; omega
  | succ f ih =>
    intro i eoly cly hif hei hi
    have hE_le : min (i + ctx.min_step) ctx.padded_seq_end ≤ ctx.padded_seq_end :=
      Nat.min_le_right _ _
    have hE_ge : i + 1 ≤ min (i + ctx.min_step) ctx.padded_seq_end :=
      le_min (by omega) (by omega)
    have hE_or : min (i + ctx.min_step) ctx.padded_seq_end = i + ctx.min_step
        ∨ min (i + ctx.min_step) ctx.padded_seq_end = ctx.padded_seq_end :=
      min_choice _ _
    simp only [divvyGo]
    rw [if_pos hi]
    by_cases hcond : ctx.stability_threshold
          < ctx.cumulative_diffs.getD (min (i + ctx.min_step) ctx.padded_seq_end) 0
            - cly
        ∨ ctx.max_size < min (i + ctx.min_step) ctx.padded_seq_end - eoly
        ∨ min (i + ctx.min_step) ctx.padded_seq_end = ctx.padded_seq_end
    · rw [if_pos hcond]
      refine Tiling.cons rfl ?_ ?_ ?_
      · show eoly < min (i + ctx.min_step) ctx.padded_seq_end
        omega
      · show min (i + ctx.min_step) ctx.padded_seq_end ≤ ctx.padded_seq_end
        omega
      · show Tiling ctx.padded_seq_end (min (i + ctx.min_step) ctx.padded_seq_end)
          (divvyGo ctx f (i + ctx.min_step) (min (i + ctx.min_step) ctx.padded_seq_end)
            (ctx.cumulative_diffs.getD (min (i + ctx.min_step) ctx.padded_seq_end) 0))
        by_cases hE : min (i + ctx.min_step) ctx.padded_seq_end = ctx.padded_seq_end
        · rw [divvyGo_stop ctx f (i + ctx.min_step) _ _ (by omega)]
          rw [hE]
          exact Tiling.nil
        · exact ih (i + ctx.min_step) _ _ (by omega) (by omega) (by omega)
    · rw [if_neg hcond]
      have hE : min (i + ctx.min_step) ctx.padded_seq_end ≠ ctx.padded_seq_end :=
        fun h => hcond (Or.inr (Or.inr h))
      exact ih (i + ctx.min_step) eoly cly (by omega) (by omega) (by omega)

/-- Every pre-hint the loop emits was emitted for a reason: its span crossed
the volatility budget, or its length crossed max_size, or it ends at the
padded sequence end (the last candidate). -/
theorem divvyGo_cause (ctx : DivvyLocals) :
    ∀ (f i eoly : Nat),
      ∀ ph ∈ divvyGo ctx f i eoly (ctx.cumulative_diffs.getD eoly 0),
        ctx.stability_threshold
            < ctx.cumulative_diffs.getD ph.«end» 0
              - ctx.cumulative_diffs.getD ph.start 0
          ∨ ctx.max_size < ph.«end» - ph.start
          ∨ ph.«end» = ctx.padded_seq_end := by
  intro f
  induction f with
  | zero => intro i eoly ph hph; simp [divvyGo] at hph
  | succ f ih =>
    intro i eoly ph hph
    simp only [divvyGo] at hph
    by_cases hi : i < ctx.padded_seq_end
    · rw [if_pos hi] at hph
      by_cases hcond : ctx.stability_threshold
            < ctx.cumulative_diffs.getD (min (i + ctx.min_step) ctx.padded_seq_end) 0
              - ctx.cumulative_diffs.getD eoly 0
          ∨ ctx.max_size < min (i + ctx.min_step) ctx.padded_seq_end - eoly
          ∨ min (i + ctx.min_step) ctx.padded_seq_end = ctx.padded_seq_end
      · rw [if_pos hcond] at hph
        rcases List.mem_cons.mp hph with rfl | hph'
        · exact hcond
        · exact ih (i + ctx.min_step) _ ph hph'
      · rw [if_neg hcond] at hph
        exact ih (i + ctx.min_step) eoly ph hph
    · rw [if_neg hi] at hph
      simp at hph

/-- The first pre-hint of a nonempty tiling starts exactly at lo. -/
theorem Tiling.headD_start {hi lo : Nat} {l : List PreHint} (h : Tiling hi lo l) :
    ∀ d, l ≠ [] → (l.headD d).start = lo := by
  cases h with
  | nil => intro d hd; exact absurd rfl hd
  | cons hs hlt hle htl => intro d _; simpa using hs

/-- When the padded end is exactly one position past the first candidate, the
loop emits exactly one pre-hint. -/
theorem divvyGo_single (ctx : DivvyLocals) (hstep : 0 < ctx.min_step)
    (f i : Nat) (cly : ℚ) (hf : 0 < f) (hpse : ctx.padded_seq_end = i + 1) :
    (divvyGo ctx f i i cly).length = 1 := by
  obtain ⟨g, rfl⟩ : ∃ g, f = g + 1 := ⟨f - 1, by omega⟩
  have hmin : min (i + ctx.min_step) ctx.padded_seq_end = ctx.padded_seq_end :=
    min_eq_right (by omega)
  simp only [divvyGo]
  rw [if_pos (by omega)]
  rw [hmin]
  rw [if_pos (Or.inr (Or.inr rfl))]
  rw [divvyGo_stop ctx g (i + ctx.min_step) _ _ (by omega)]
  rfl

/-- Claim C5: for a sub-region of length n > 2*pad, the divvier's pre-hints
are nonempty, emitted in increasing order, pairwise disjoint, chained (each
starts exactly where the previous one ends), the first starts at pad, the
last ends at n - pad, and their union covers [pad, n - pad) exactly — so with
the pad-wide margins re-added the sub-region is covered with no gaps and no
overlaps.  pad ≥ 2 keeps the source's cumulative_diffs accesses in bounds
(claim C10) and min_step ≥ 1 reflects range() needing a positive step. -/
theorem C5_divvy_partition (one_class_chunk : List ProbRow)
    (step_key : Fin 4 → Nat × Nat) (pad : Nat) (stability_threshold : ℚ)
    (hpad : 2 ≤ pad) (hn : 2 * pad < one_class_chunk.length)
    (hstep : 0 < (step_key (main_class_of one_class_chunk)).1) :
    divvy_by_confidence one_class_chunk step_key pad stability_threshold ≠ [] ∧
    ((divvy_by_confidence one_class_chunk step_key pad stability_threshold).headD
        ⟨0, 0, 0, 0⟩).start = pad ∧
    ((divvy_by_confidence one_class_chunk step_key pad stability_threshold).getLastD
        ⟨0, 0, 0, 0⟩).«end» = one_class_chunk.length - pad ∧
    List.Chain' (fun a b => a.«end» = b.start)
      (divvy_by_confidence one_class_chunk step_key pad stability_threshold) ∧
    (∀ ph ∈ divvy_by_confidence one_class_chunk step_key pad stability_threshold,
      ph.start < ph.«end») ∧
    List.Pairwise (fun a b => a.start < b.start ∧ a.«end» ≤ b.start)
      (divvy_by_confidence one_class_chunk step_key pad stability_threshold) ∧
    (∀ x : Nat, (pad ≤ x ∧ x < one_class_chunk.length - pad) ↔
      ∃ ph ∈ divvy_by_confidence one_class_chunk step_key pad stability_threshold,
        ph.start ≤ x ∧ x < ph.«end») := by
  have hstep' : 0 < (divvy_ctx one_class_chunk step_key pad stability_threshold).min_step :=
    hstep
  have hpse : (divvy_ctx one_class_chunk step_key pad stability_threshold).padded_seq_end
      = one_class_chunk.length - pad := rfl
  have hdef : divvy_by_confidence one_class_chunk step_key pad stability_threshold
      = divvyGo (divvy_ctx one_class_chunk step_key pad stability_threshold)
          one_class_chunk.length pad pad
          ((divvy_ctx one_class_chunk step_key pad stability_threshold).cumulative_diffs.getD
            pad 0) := rfl
  have T0 := divvyGo_tiling (divvy_ctx one_class_chunk step_key pad stability_threshold)
    hstep' one_class_chunk.length pad pad
    ((divvy_ctx one_class_chunk step_key pad stability_threshold).cumulative_diffs.getD pad 0)
    (by omega) (le_refl pad) (by omega)
  rw [hpse] at T0
  rw [← hdef] at T0
  have hne : divvy_by_confidence one_class_chunk step_key pad stability_threshold ≠ [] := by
    intro h
    rw [h] at T0
    have := T0.nil_eq
    omega
  refine ⟨hne, T0.headD_start _ hne, T0.lastD _ hne, T0.chain,
    fun ph hph => (T0.mem_bounds ph hph).2.1, T0.pairwise, T0.cover⟩

/-- Witness for C5: a 5-row constant chunk with pad 2 yields a nonempty
pre-hint list starting at 2 and ending at 3. -/
theorem C5_witness :
    divvy_by_confidence (List.replicate 5 (cls0_row (9/10))) flat_step_key 2 (1/10) ≠ [] ∧
    ((divvy_by_confidence (List.replicate 5 (cls0_row (9/10))) flat_step_key 2 (1/10)).headD
        ⟨0, 0, 0, 0⟩).start = 2 ∧
    ((divvy_by_confidence (List.replicate 5 (cls0_row (9/10))) flat_step_key 2 (1/10)).getLastD
        ⟨0, 0, 0, 0⟩).«end» = (List.replicate 5 (cls0_row (9/10))).length - 2 := by
  obtain ⟨h1, h2, h3, -⟩ := C5_divvy_partition (List.replicate 5 (cls0_row (9/10)))
    flat_step_key 2 (1/10) (by decide) (by decide) (by decide)
  exact ⟨h1, h2, h3⟩

/-- Counterexample to claim C6 as stated: on volatile_chunk with pad 2, policy
(min_step 2, max_size 100) and threshold 1/10, the divvier emits two
pre-hints; the earlier one does not end at the padded end, its span's
cumulative change is 4/5 > 1/10, yet its length 2 never reached max_size 100
— so "the change across the earlier PreHint does not exceed
stability_threshold unless its length already reached max_size" is false. -/
theorem C6_counterexample :
    unstable_prehints.length = 2 ∧
    (unstable_prehints.getD 0 ⟨0, 0, 0, 0⟩).«end» ≠ volatile_chunk.length - 2 ∧
    ¬ (volatility_between volatile_chunk (main_class_of volatile_chunk)
          (unstable_prehints.getD 0 ⟨0, 0, 0, 0⟩).start
          (unstable_prehints.getD 0 ⟨0, 0, 0, 0⟩).«end» ≤ 1/10
        ∨ (flat_step_key (main_class_of volatile_chunk)).2
            ≤ (unstable_prehints.getD 0 ⟨0, 0, 0, 0⟩).«end»
              - (unstable_prehints.getD 0 ⟨0, 0, 0, 0⟩).start) := by
  decide

/-- Claim C6 as amended: for any two consecutive emitted PreHints within one
sub-region, the cumulative absolute probability change across the earlier one
EXCEEDS stability_threshold unless its length exceeds max_size — the divvier
closes a pre-hint just after a budget is crossed, never just before (the
direction stated in the original claim, refuted by C6_counterexample). -/
theorem C6_amended_volatility_bound (one_class_chunk : List ProbRow)
    (step_key : Fin 4 → Nat × Nat) (pad : Nat) (stability_threshold : ℚ)
    (hpad : 2 ≤ pad) (hn : 2 * pad < one_class_chunk.length)
    (hstep : 0 < (step_key (main_class_of one_class_chunk)).1) :
    ∀ (j : Nat) (ph1 ph2 : PreHint),
      (divvy_by_confidence one_class_chunk step_key pad stability_threshold)[j]?
          = some ph1 →
      (divvy_by_confidence one_class_chunk step_key pad stability_threshold)[j + 1]?
          = some ph2 →
      stability_threshold
          < volatility_between one_class_chunk (main_class_of one_class_chunk)
              ph1.start ph1.«end»
        ∨ (step_key (main_class_of one_class_chunk)).2 < ph1.«end» - ph1.start := by
  intro j ph1 ph2 h1 h2
  have hstep' : 0 < (divvy_ctx one_class_chunk step_key pad stability_threshold).min_step :=
    hstep
  have hpse : (divvy_ctx one_class_chunk step_key pad stability_threshold).padded_seq_end
      = one_class_chunk.length - pad := rfl
  have hdef : divvy_by_confidence one_class_chunk step_key pad stability_threshold
      = divvyGo (divvy_ctx one_class_chunk step_key pad stability_threshold)
          one_class_chunk.length pad pad
          ((divvy_ctx one_class_chunk step_key pad stability_threshold).cumulative_diffs.getD
            pad 0) := rfl
  have T0 := divvyGo_tiling (divvy_ctx one_class_chunk step_key pad stability_threshold)
    hstep' one_class_chunk.length pad pad
    ((divvy_ctx one_class_chunk step_key pad stability_threshold).cumulative_diffs.getD pad 0)
    (by omega) (le_refl pad) (by omega)
  rw [hpse] at T0
  rw [← hdef] at T0
  have hmem1 : ph1 ∈ divvy_by_confidence one_class_chunk step_key pad stability_threshold :=
    mem_of_getElemOpt h1
  have hcause := divvyGo_cause (divvy_ctx one_class_chunk step_key pad stability_threshold)
    one_class_chunk.length pad pad ph1 (by rw [← hdef]; exact hmem1)
  rcases hcause with hvol | hsize | hend
  · exact Or.inl hvol
  · exact Or.inr hsize
  · exfalso
    have hR := pairwise_of_getElemOpt T0.pairwise h1 h2 (by omega)
    have hb := T0.mem_bounds ph2 (mem_of_getElemOpt h2)
    rw [hpse] at hend
    omega

/-- Witness for C6's amended claim at unstable_prehints, position 0. -/
theorem C6_witness :
    (1 : ℚ)/10 < volatility_between volatile_chunk (main_class_of volatile_chunk)
        (unstable_prehints.getD 0 ⟨0, 0, 0, 0⟩).start
        (unstable_prehints.getD 0 ⟨0, 0, 0, 0⟩).«end»
      ∨ (flat_step_key (main_class_of volatile_chunk)).2
          < (unstable_prehints.getD 0 ⟨0, 0, 0, 0⟩).«end»
            - (unstable_prehints.getD 0 ⟨0, 0, 0, 0⟩).start :=
  C6_amended_volatility_bound volatile_chunk flat_step_key 2 (1/10)
    (by decide) (by decide) (by decide) 0
    (unstable_prehints.getD 0 ⟨0, 0, 0, 0⟩) (unstable_prehints.getD 1 ⟨0, 0, 0, 0⟩)
    (by decide) (by decide)

/-- Claim C7: with pad ≥ 2 (so the computation is defined) and a positive
step, a sub-region of length exactly 2*pad yields zero pre-hints and one of
length 2*pad + 1 yields exactly one. -/
theorem C7_boundary (one_class_chunk : List ProbRow)
    (step_key : Fin 4 → Nat × Nat) (pad : Nat) (stability_threshold : ℚ)
    (_hpad : 2 ≤ pad)
    (hstep : 0 < (step_key (main_class_of one_class_chunk)).1) :
    (one_class_chunk.length = 2 * pad →
      divvy_by_confidence one_class_chunk step_key pad stability_threshold = []) ∧
    (one_class_chunk.length = 2 * pad + 1 →
      (divvy_by_confidence one_class_chunk step_key pad stability_threshold).length
        = 1) := by
  have hstep' : 0 < (divvy_ctx one_class_chunk step_key pad stability_threshold).min_step :=
    hstep
  have hpse : (divvy_ctx one_class_chunk step_key pad stability_threshold).padded_seq_end
      = one_class_chunk.length - pad := rfl
  have hdef : divvy_by_confidence one_class_chunk step_key pad stability_threshold
      = divvyGo (divvy_ctx one_class_chunk step_key pad stability_threshold)
          one_class_chunk.length pad pad
          ((divvy_ctx one_class_chunk step_key pad stability_threshold).cumulative_diffs.getD
            pad 0) := rfl
  constructor
  · intro hlen
    rw [hdef]
    exact divvyGo_stop _ _ _ _ _ (by omega)
  · intro hlen
    rw [hdef]
    exact divvyGo_single _ hstep' _ _ _ (by omega) (by omega)

/-- Witness for C7: with pad = 2, a 4-row chunk yields no pre-hint and a 5-row
chunk yields exactly one. -/
theorem C7_witness :
    divvy_by_confidence (List.replicate 4 (cls0_row (9/10))) flat_step_key 2 (1/10) = [] ∧
    (divvy_by_confidence (List.replicate 5 (cls0_row (9/10))) flat_step_key 2 (1/10)).length
      = 1 :=
  ⟨(C7_boundary (List.replicate 4 (cls0_row (9/10))) flat_step_key 2 (1/10)
      (by decide) (by decide)).1 (by decide),
   (C7_boundary (List.replicate 5 (cls0_row (9/10))) flat_step_key 2 (1/10)
      (by decide) (by decide)).2 (by decide)⟩

/-- Every index in the loop part of the access trace is at most the padded
sequence end. -/
theorem divvy_accesses_go_le (min_step padded_seq_end : Nat) :
    ∀ (f i : Nat), ∀ a ∈ divvy_accesses_go min_step padded_seq_end f i,
      a ≤ padded_seq_end := by
  intro f
  induction f with
  | zero => intro i a ha; simp [divvy_accesses_go] at ha
  | succ f ih =>
    intro i a ha
    simp only [divvy_accesses_go] at ha
    by_cases hi : i < padded_seq_end
    · rw [if_pos hi] at ha
      rcases List.mem_cons.mp ha with rfl | ha'
      · exact Nat.min_le_right _ _
      · exact ih _ a ha'
    · rw [if_neg hi] at ha
      simp at ha

/-- Claim C10: the divvier subscripts the cumulative-volatility array (length
n - 1) at position pad and at every candidate boundary up to n - pad.  For
pad ≥ 2 and n ≥ 2*pad + 1 every such access is in bounds; for pad ≤ 1 there
is a sub-region (n = pad + 2 rows ≥ pad + 1, min_step 2, whose only candidate
triggers the emission check at the padded end) on which the access at index
n - pad falls outside the array. -/
theorem C10_access_bounds :
    (∀ (n pad min_step : Nat), 2 ≤ pad → 2 * pad + 1 ≤ n →
      ∀ a ∈ divvy_accesses n pad min_step, a < n - 1) ∧
    (∀ pad : Nat, pad ≤ 1 →
      (pad + 2 - pad) ∈ divvy_accesses (pad + 2) pad 2 ∧
      ¬ (pad + 2 - pad < pad + 2 - 1)) := by
  constructor
  · intro n pad min_step hpad hn a ha
    rcases List.mem_cons.mp ha with rfl | ha'
    · omega
    · have := divvy_accesses_go_le min_step (n - pad) n pad a ha'
      omega
  · intro pad hpad
    interval_cases pad
    · exact ⟨by decide, by decide⟩
    · exact ⟨by decide, by decide⟩

/-- Witness for C10: with n = 7, pad = 2, step 2, the access at index 4 is in
bounds; with pad = 1 the access at index n - pad = 2 is out of bounds for the
length-2 array of a 3-row sub-region. -/
theorem C10_witness :
    ((4 : Nat) ∈ divvy_accesses 7 2 2 ∧ (4 : Nat) < 7 - 1) ∧
    ((1 + 2 - 1 : Nat) ∈ divvy_accesses (1 + 2) 1 2 ∧ ¬ (1 + 2 - 1 < 1 + 2 - 1 : Prop)) :=
  ⟨⟨by decide, C10_access_bounds.1 7 2 2 (by decide) (by decide) 4 (by decide)⟩,
   C10_access_bounds.2 1 (by decide)⟩

end Helixer
